import Mathlib

/-!
Shallow embedding of the toolkit utility library (Go) and verification of its
specification claims.  Byte values are modelled as Nat, Go strings as Lean
String or List Char, the filesystem as an association list from paths to
contents, and the cryptographic randomness source as an oracle parameter.
-/

namespace Toolkit

/-- Characters used to generate random strings (constant randomStringSource). -/
def randomStringSource : String :=
  "abcdefghijklmnopqrstuvwxyzABCDEFGHIJKLMNOPQRSTUVWXYZ1234567890_+"

/-- The source alphabet as a list of characters. -/
def sourceChars : List Char := randomStringSource.data

/-- Configuration record Tools with its four option fields. -/
structure Tools where
  MaxFileSize : Int
  AllowedFileTypes : List String
  MaxJSONSize : Int
  AllowUnknownFields : Bool
deriving DecidableEq, Repr

/-- RandomString: for each position an (allegedly prime) value is drawn from the
oracle, truncated to 64 bits as by the Uint64 conversion, and reduced modulo the
alphabet length 64 to pick a character. -/
def RandomString (oracle : Nat → Nat) (length : Nat) : List Char :=
  (List.range length).map (fun i => sourceChars.getD ((oracle i % 2 ^ 64) % 64) ' ')

/-- RandomString packaged as a Lean string. -/
def randomStringS (oracle : Nat → Nat) (length : Nat) : String :=
  String.mk (RandomString oracle length)

/-- The simple lower case mapping of unicode.ToLower, as strings.ToLower
applies it rune by rune, modelled exactly on every code point whose image can
reach the slug alphabet: the letters A to Z map into a to z, and U+0130 and
U+212A, the only two further code points in Unicode whose simple lower case
is an ASCII letter, map to i and k.  Every other character is left unchanged,
which Slugify cannot distinguish from the real mapping: no other code point
lowers into the class of lowercase letters and digits, lower casing fixes
that class pointwise, and every character outside it is collapsed into a
hyphen whatever its identity, so the modelled Slugify agrees with the source
on all inputs. -/
def goToLower (c : Char) : Char :=
  if 'A' ≤ c ∧ c ≤ 'Z' then Char.ofNat (c.toNat + 32)
  else if c = '\u0130' then 'i'
  else if c = '\u212A' then 'k'
  else c

/-- Membership in the character class of the regular expression, lowercase
letters and digits. -/
def isSlugChar (c : Char) : Bool :=
  ('a' ≤ c && c ≤ 'z') || ('0' ≤ c && c ≤ '9')

/-- Trim characters satisfying p from both ends of a list, as strings.Trim with
a one-character cut set. -/
def trimList (p : Char → Bool) (s : List Char) : List Char :=
  ((s.dropWhile p).reverse.dropWhile p).reverse

/-- Replacement of every maximal run of non slug characters by a single hyphen,
the effect of ReplaceAllString with pattern matching runs outside lowercase
letters and digits.  The flag records whether the previous character belonged
to a run already replaced. -/
def replaceRuns : List Char → Bool → List Char
  | [], _ => []
  | c :: cs, inRun =>
    if isSlugChar c then c :: replaceRuns cs false
    else if inRun then replaceRuns cs true
    else '-' :: replaceRuns cs true

/-- Slugify: reject blank input, lower case, collapse non alphanumeric runs to
hyphens, trim hyphens, reject an empty result. -/
def Slugify (s : List Char) : Except String (List Char) :=
  if trimList (fun c => c = ' ') s = [] then .error "empty string not permitted"
  else
    let slug := trimList (fun c => c = '-') (replaceRuns (s.map goToLower) false)
    if slug.length = 0 then .error "slugified string is empty"
    else .ok slug

deriving instance DecidableEq for Except

/-- Descriptor of an uploaded file: new name, original name, bytes written. -/
structure UploadedFile where
  NewFileName : String
  OriginalFileName : String
  FileSize : Nat
deriving DecidableEq, Repr

/-- A multipart file header: the client supplied name together with the outcome
of opening the part (its byte content, or an open error). -/
structure FileHeader where
  filename : String
  openResult : Except String (List Nat)
deriving DecidableEq, Repr

/-- The outcomes of the collaborators UploadFiles consults before the per file
loop: directory creation and multipart parsing, plus the ordered file parts the
multipart decoder yields. -/
structure Request where
  mkdirError : Option String
  parseError : Option String
  files : List FileHeader
deriving DecidableEq, Repr

/-- The filesystem as an association list from paths to byte contents. -/
abbrev Disk : Type := List (String × List Nat)

/-- Writing a file: os.Create truncates any file at the path, then the copy
stores the content. -/
def diskWrite (d : Disk) (p : String) (c : List Nat) : Disk :=
  (p, c) :: List.filter (fun kv => kv.1 ≠ p) d

/-- Whether a path is present on the disk. -/
def diskHasPath (d : Disk) (p : String) : Bool :=
  List.any d (fun kv => kv.1 = p)

/-- ASCII lower casing of a character, the folding fragment behind the case
insensitive comparison of MIME type strings. -/
def asciiToLower (c : Char) : Char :=
  if 'A' ≤ c ∧ c ≤ 'Z' then Char.ofNat (c.toNat + 32) else c

/-- ASCII case folding equality, the fragment of strings.EqualFold the MIME
strings of this library exercise. -/
def eqFold (a b : String) : Bool :=
  a.data.map asciiToLower = b.data.map asciiToLower

/-- The default allow list applied lazily when AllowedFileTypes is empty. -/
def defaultAllowedTypes : List String :=
  ["image/jpeg", "image/jpg", "image/png", "image/gif", "application/pdf"]

/-- CheckFileType: lazily installs the default allow list, then compares the
sniffed type case insensitively against each entry.  Returns the possibly
mutated record together with the verdict. -/
def CheckFileType (t : Tools) (fileType : String) : Tools × Bool :=
  let t2 := if t.AllowedFileTypes = [] then
    { t with AllowedFileTypes := defaultAllowedTypes } else t
  (t2, t2.AllowedFileTypes.any (fun a => eqFold fileType a))

/-- Scan of a reversed character list for the extension: stop at a path
separator, return the suffix from the last dot. -/
def extAux : List Char → List Char → List Char
  | [], _ => []
  | c :: rest, acc =>
    if c = '/' then []
    else if c = '.' then c :: acc
    else extAux rest (c :: acc)

/-- filepath.Ext: the suffix beginning at the final dot in the final slash
separated element of the path, empty if there is no dot. -/
def goExt (name : String) : String :=
  String.mk (extAux name.data.reverse [])

/-- GetNewFileName: a 25 character random string plus the original extension
when renaming, the original filename verbatim otherwise. -/
def GetNewFileName (oracle : Nat → Nat) (fh : FileHeader) (renameFile : Bool) : String :=
  if renameFile then randomStringS oracle 25 ++ goExt fh.filename
  else fh.filename

/-- The 512 byte buffer handed to content sniffing: the Read call fills the
first min(512, size) bytes, the rest of the buffer keeps its zero initial
value. -/
def sniffBuffer (c : List Nat) : List Nat :=
  c.take 512 ++ List.replicate (512 - (c.take 512).length) 0

/-- HandleFile: open the part, read up to 512 bytes (a read on an empty part
yields the EOF error), sniff and check the type, rewind, choose the output
name, create the output file and copy the content.  The content sniffer is a
parameter standing for http.DetectContentType. -/
def HandleFile (t : Tools) (sniff : List Nat → String) (oracle : Nat → Nat)
    (fh : FileHeader) (uploadDir : String) (renameFile : Bool) (disk : Disk) :
    Disk × Tools × Except String UploadedFile :=
  match fh.openResult with
  | .error e => (disk, t, .error e)
  | .ok content =>
    if content = [] then (disk, t, .error "EOF")
    else
      let fileType := sniff (sniffBuffer content)
      match CheckFileType t fileType with
      | (t2, ok) =>
        if !ok then (disk, t2, .error "file type not permitted")
        else
          let newName := GetNewFileName oracle fh renameFile
          let disk2 := diskWrite disk (uploadDir ++ "/" ++ newName) content
          (disk2, t2, .ok ⟨newName, fh.filename, content.length⟩)

/-- Resolution of the variadic trailing rename parameter: defaults to true
when unspecified, otherwise the first supplied value. -/
def resolveRename (rename : List Bool) : Bool :=
  match rename with
  | [] => true
  | b :: _ => b

/-- Lazy MaxFileSize defaulting at the top of UploadFiles. -/
def defMaxSize (t : Tools) : Tools :=
  if t.MaxFileSize = 0 then { t with MaxFileSize := 1024 * 1024 * 1024 } else t

/-- The per file loop of UploadFiles: each file is handled in turn; the first
failure returns the descriptors accumulated so far together with the error,
skipping the remaining files.  The index selects the randomness oracle of each
processed file. -/
def uploadLoop (sniff : List Nat → String) (oracles : Nat → Nat → Nat)
    (uploadDir : String) (renameFile : Bool) :
    Nat → Tools → Disk → List UploadedFile → List FileHeader →
    Disk × Tools × List UploadedFile × Option String
  | _, t, disk, acc, [] => (disk, t, acc, none)
  | idx, t, disk, acc, fh :: rest =>
    match HandleFile t sniff (oracles idx) fh uploadDir renameFile disk with
    | (disk2, t2, .error e) => (disk2, t2, acc, some e)
    | (disk2, t2, .ok uf) =>
      uploadLoop sniff oracles uploadDir renameFile (idx + 1) t2 disk2 (acc ++ [uf]) rest

/-- UploadFiles: resolve the rename flag, default the max size, ensure the
directory, parse the multipart form (any parse failure is replaced by the
fixed too big message), then run the per file loop. -/
def UploadFiles (t : Tools) (sniff : List Nat → String) (oracles : Nat → Nat → Nat)
    (r : Request) (uploadDir : String) (rename : List Bool) (disk : Disk) :
    Disk × Tools × List UploadedFile × Option String :=
  let renameFile := resolveRename rename
  let t1 := defMaxSize t
  match r.mkdirError with
  | some e => (disk, t1, [], some e)
  | none =>
    match r.parseError with
    | some _ => (disk, t1, [], some "the uploaded file is too big")
    | none => uploadLoop sniff oracles uploadDir renameFile 0 t1 disk [] r.files

/-- Outcome of a Go function that can also crash with a runtime panic. -/
inductive GoResult (α : Type) where
  | ok : α → GoResult α
  | err : String → GoResult α
  | panic : String → GoResult α
deriving DecidableEq, Repr

/-- UploadFile: call UploadFiles with the resolved rename flag and return the
first element of the resulting slice; indexing an empty slice is a runtime
panic in Go. -/
def UploadFile (t : Tools) (sniff : List Nat → String) (oracles : Nat → Nat → Nat)
    (r : Request) (uploadDir : String) (rename : List Bool) (disk : Disk) :
    Disk × Tools × GoResult UploadedFile :=
  let renameFile := resolveRename rename
  match UploadFiles t sniff oracles r uploadDir [renameFile] disk with
  | (d, t2, _, some e) => (d, t2, .err e)
  | (d, t2, [], none) => (d, t2, .panic "runtime error: index out of range")
  | (d, t2, f :: _, none) => (d, t2, .ok f)

/-- The low level decode failures distinguished by the classifier, each
carrying the data its Go counterpart exposes.  A generic error carries only
its message, as errors created by errors.New or by the decoder internals. -/
inductive GoError where
  | syntaxError : Int → GoError
  | unmarshalTypeError : String → Int → GoError
  | invalidUnmarshalError : String → GoError
  | unexpectedEOF : GoError
  | eof : GoError
  | generic : String → GoError
deriving DecidableEq, Repr

/-- The message of each error value, as the Error method renders it. -/
def GoError.message : GoError → String
  | .syntaxError off => "invalid character at offset " ++ toString off
  | .unmarshalTypeError f off =>
    "json: cannot unmarshal into field " ++ f ++ " at offset " ++ toString off
  | .invalidUnmarshalError m => m
  | .unexpectedEOF => "unexpected EOF"
  | .eof => "EOF"
  | .generic m => m

/-- The marker prefix of unknown field errors from the decoder. -/
def unknownFieldError : String := "json: unknown field"

/-- Whether the second character list is an initial segment of the first, as
strings.HasPrefix does byte for byte. -/
def hasPrefixList : List Char → List Char → Bool
  | _, [] => true
  | [], _ :: _ => false
  | c :: cs, p :: ps => c = p && hasPrefixList cs ps

/-- strings.HasPrefix on the character lists of two strings. -/
def goHasPrefix (s pre : String) : Bool := hasPrefixList s.data pre.data

/-- Removal of the first n characters of a string, the effect of TrimPrefix
once the prefix is known to be present. -/
def goDrop (s : String) (n : Nat) : String := String.mk (s.data.drop n)

/-- Rendering of a string with surrounding double quotes, as the q format
verb does for the plain field names at play. -/
def quoteS (s : String) : String := "\"" ++ s ++ "\""

/-- handleError: the switch translating decode failures into user facing
messages.  The first three cases match by dynamic type, the next two by
sentinel identity, the last two by message inspection, and anything else is
returned unchanged. -/
def handleError (err : GoError) (maxBytes : Int) : GoError :=
  match err with
  | .syntaxError off =>
    .generic ("body contains badly formed JSON at character " ++ toString off)
  | .unmarshalTypeError field off =>
    if field = "" then
      .generic ("body contains badly formed JSON type for field " ++ quoteS field)
    else
      .generic ("body contains badly formed JSON at character " ++ toString off)
  | .invalidUnmarshalError m =>
    .generic ("error unmarshalling JSON: " ++ m)
  | .unexpectedEOF =>
    .generic "body contains badly formed JSON (unexpected EOF marker)"
  | .eof => .generic "body must not be empty"
  | .generic msg =>
    if goHasPrefix msg unknownFieldError then
      .generic ("body contains unknown field " ++ goDrop msg unknownFieldError.length)
    else if msg = "http: request body too large" then
      .generic ("body must not be larger than " ++ toString maxBytes ++ " bytes")
    else .generic msg

/-- The byte limit ReadJSON applies to the request body: the literal default
1024 * 10243 when MaxJSONSize is left at zero, the configured value
otherwise. -/
def readJSONLimit (t : Tools) : Int :=
  if t.MaxJSONSize ≠ 0 then t.MaxJSONSize else 1024 * 10243

/-- ReadJSON: wrap the body with the byte limit, decode, and classify any
failure.  The decoding of the limited body is abstracted as a function of the
applied limit, standing for decodeJSON over the MaxBytesReader wrapped
body. -/
def ReadJSON (t : Tools) (decodeResult : Int → Option GoError) : Option GoError :=
  match decodeResult (readJSONLimit t) with
  | none => none
  | some e => some (handleError e (readJSONLimit t))

/-! ## Verification of the claims -/

/-- C9: with MaxJSONSize left at its zero value the byte limit ReadJSON
applies is exactly 1024 * 10243 = 10488832 bytes, which is not 10 MiB; with a
nonzero configured size that value is used instead; and ReadJSON hands exactly
this limit to the decode of the wrapped body and to the error classifier. -/
theorem C9_readJSON_limit (t : Tools) (d : Int → Option GoError) :
    readJSONLimit t = (if t.MaxJSONSize = 0 then 10488832 else t.MaxJSONSize) ∧
    (1024 * 10243 : Int) = 10488832 ∧
    (10488832 : Int) ≠ 10 * 1024 * 1024 ∧
    ReadJSON t d = (d (readJSONLimit t)).map (fun e => handleError e (readJSONLimit t)) := by
  refine ⟨?_, by norm_num, by norm_num, ?_⟩
  · unfold readJSONLimit
    by_cases h : t.MaxJSONSize = 0 <;> simp [h]
  · unfold ReadJSON
    cases d (readJSONLimit t) <;> rfl

/-- C2: evaluation of the classifier shows the wrong type branch inverted: a
wrong typed value for the named field name at offset 9 is classified as the
character offset message instead of the wrong type for field kind naming the
field; the branch that formats a field name fires only when the field is
empty; unrecognized errors are passed through unchanged, as the claim also
states. -/
theorem C2_handleError_wrong_type_branch :
    handleError (.unmarshalTypeError "name" 9) 512 =
      .generic "body contains badly formed JSON at character 9" ∧
    handleError (.unmarshalTypeError "" 9) 512 =
      .generic ("body contains badly formed JSON type for field " ++ quoteS "") ∧
    handleError (.generic "some transport error") 512 =
      .generic "some transport error" := by
  refine ⟨by decide, by decide, by decide⟩

/-- C7: whenever the multipart parse fails, whatever the underlying cause, the
batch returns no descriptors and the fixed too big message in place of the
parse error. -/
theorem C7_parse_failure_reported_too_big (t : Tools) (sniff : List Nat → String)
    (oracles : Nat → Nat → Nat) (r : Request) (dir : String) (rename : List Bool)
    (disk : Disk) (e : String)
    (hmk : r.mkdirError = none) (hp : r.parseError = some e) :
    UploadFiles t sniff oracles r dir rename disk =
      (disk, defMaxSize t, [], some "the uploaded file is too big") := by
  unfold UploadFiles
  rw [hmk, hp]

theorem C7_witness :
    (⟨none, some "unexpected EOF while reading the next part", [⟨"a.png", .ok [1]⟩]⟩ : Request).mkdirError = none ∧
    UploadFiles ⟨5, ["image/png"], 0, false⟩ (fun _ => "image/png") (fun _ _ => 1)
        ⟨none, some "unexpected EOF while reading the next part", [⟨"a.png", .ok [1]⟩]⟩
        "up" [] [] =
      ([], defMaxSize ⟨5, ["image/png"], 0, false⟩, [], some "the uploaded file is too big") :=
  ⟨rfl, C7_parse_failure_reported_too_big ⟨5, ["image/png"], 0, false⟩
    (fun _ => "image/png") (fun _ _ => 1)
    ⟨none, some "unexpected EOF while reading the next part", [⟨"a.png", .ok [1]⟩]⟩
    "up" [] [] "unexpected EOF while reading the next part" rfl rfl⟩

/-- C8: with renaming requested the stored name is the 25 character random
string followed by the extension of the original filename, and has length 25
plus the extension length; with renaming declined the stored name is the
client supplied filename verbatim; the flag defaults to true when the
variadic parameter is unspecified. -/
theorem C8_new_file_name (oracle : Nat → Nat) (fh : FileHeader) :
    GetNewFileName oracle fh true = randomStringS oracle 25 ++ goExt fh.filename ∧
    (randomStringS oracle 25).length = 25 ∧
    (GetNewFileName oracle fh true).length = 25 + (goExt fh.filename).length ∧
    GetNewFileName oracle fh false = fh.filename ∧
    resolveRename [] = true := by
  have hlen : (randomStringS oracle 25).length = 25 := by
    show (String.mk (RandomString oracle 25)).data.length = 25
    simp [RandomString]
  refine ⟨rfl, hlen, ?_, rfl, rfl⟩
  show (randomStringS oracle 25 ++ goExt fh.filename).length = 25 + (goExt fh.filename).length
  rw [String.length_append, hlen]

/-- C6: RandomString returns exactly the requested number of characters, the
empty string for zero, and each character belongs to the fixed 64 character
alphabet. -/
theorem C6_random_string_length_alphabet (oracle : Nat → Nat) (n : Nat) :
    (randomStringS oracle n).length = n ∧
    randomStringS oracle 0 = "" ∧
    ∀ c ∈ (randomStringS oracle n).data, c ∈ sourceChars := by
  refine ⟨?_, rfl, ?_⟩
  · show (String.mk (RandomString oracle n)).data.length = n
    simp [RandomString]
  · intro c hc
    have hc' : c ∈ RandomString oracle n := hc
    unfold RandomString at hc'
    rcases List.mem_map.mp hc' with ⟨i, _, hci⟩
    have hlt : (oracle i % 2 ^ 64) % 64 < sourceChars.length := by
      have h64 : sourceChars.length = 64 := by decide
      rw [h64]
      exact Nat.mod_lt _ (by norm_num)
    rw [← hci, List.getD_eq_getElem sourceChars ' ' hlt]
    exact List.getElem_mem hlt

/-- C5 counterexample: a request whose multipart form parses successfully but
contains zero file parts makes UploadFile index an empty slice, a runtime
panic, rather than returning a value or an error. -/
theorem C5_counterexample :
    UploadFile ⟨5, ["image/png"], 0, false⟩ (fun _ => "image/png") (fun _ _ => 1)
      ⟨none, none, []⟩ "up" [] [] =
    ([], ⟨5, ["image/png"], 0, false⟩, .panic "runtime error: index out of range") := by
  decide

/-- C5 amended: UploadFile propagates the batch error when the batch fails,
returns the first descriptor when the batch succeeds with at least one file,
and panics with an index out of range runtime error when the batch succeeds
with an empty descriptor list. -/
theorem C5_upload_file_cases (t : Tools) (sniff : List Nat → String)
    (oracles : Nat → Nat → Nat) (r : Request) (dir : String) (rename : List Bool)
    (disk : Disk) :
    (∀ d t2 files e,
      UploadFiles t sniff oracles r dir [resolveRename rename] disk = (d, t2, files, some e) →
      UploadFile t sniff oracles r dir rename disk = (d, t2, .err e)) ∧
    (∀ d t2 f fs,
      UploadFiles t sniff oracles r dir [resolveRename rename] disk = (d, t2, f :: fs, none) →
      UploadFile t sniff oracles r dir rename disk = (d, t2, .ok f)) ∧
    (∀ d t2,
      UploadFiles t sniff oracles r dir [resolveRename rename] disk = (d, t2, [], none) →
      UploadFile t sniff oracles r dir rename disk =
        (d, t2, .panic "runtime error: index out of range")) := by
  refine ⟨?_, ?_, ?_⟩
  · intro d t2 files e h
    unfold UploadFile
    dsimp only
    rw [h]
    cases files <;> rfl
  · intro d t2 f fs h
    unfold UploadFile
    dsimp only
    rw [h]
  · intro d t2 h
    unfold UploadFile
    dsimp only
    rw [h]

theorem C5_witness :
    UploadFiles ⟨5, ["image/png"], 0, false⟩ (fun b => if b.headD 0 = 137 then "image/png" else "text/plain")
      (fun _ _ => 1) ⟨none, none, [⟨"a.png", .ok [137, 80]⟩]⟩ "up" [resolveRename [false]] [] =
      ([("up/a.png", [137, 80])], ⟨5, ["image/png"], 0, false⟩,
        [⟨"a.png", "a.png", 2⟩], none) ∧
    UploadFile ⟨5, ["image/png"], 0, false⟩ (fun b => if b.headD 0 = 137 then "image/png" else "text/plain")
      (fun _ _ => 1) ⟨none, none, [⟨"a.png", .ok [137, 80]⟩]⟩ "up" [false] [] =
      ([("up/a.png", [137, 80])], ⟨5, ["image/png"], 0, false⟩, .ok ⟨"a.png", "a.png", 2⟩) := by
  refine ⟨by decide, ?_⟩
  exact (C5_upload_file_cases ⟨5, ["image/png"], 0, false⟩
    (fun b => if b.headD 0 = 137 then "image/png" else "text/plain")
    (fun _ _ => 1) ⟨none, none, [⟨"a.png", .ok [137, 80]⟩]⟩ "up" [false] []).2.1
    [("up/a.png", [137, 80])] ⟨5, ["image/png"], 0, false⟩ ⟨"a.png", "a.png", 2⟩ [] (by decide)

/-- C4 counterexample: a file part that opens successfully with empty content
is rejected at the sniff read step: the read of the 512 byte buffer returns
the EOF error and HandleFile fails before sniffing, although the file is
merely shorter than 512 bytes. -/
theorem C4_counterexample :
    HandleFile ⟨5, ["image/png"], 0, false⟩ (fun _ => "image/png") (fun _ => 1)
      ⟨"empty.png", .ok []⟩ "up" true [] =
    ([], ⟨5, ["image/png"], 0, false⟩, .error "EOF") := by
  decide

/-- C4 amended: for a part that opens successfully with at least one byte, the
read step never fails: the 512 byte buffer holds the first min(512, size)
bytes zero padded, the content type is sniffed from it and checked against
the allow list; a part that opens successfully with empty content is instead
rejected at the read step with the EOF read error. -/
theorem C4_sniff_read (t : Tools) (sniff : List Nat → String) (oracle : Nat → Nat)
    (fh : FileHeader) (dir : String) (rf : Bool) (disk : Disk) (content : List Nat)
    (hopen : fh.openResult = .ok content) :
    (content = [] → HandleFile t sniff oracle fh dir rf disk = (disk, t, .error "EOF")) ∧
    (content ≠ [] →
      (HandleFile t sniff oracle fh dir rf disk).2.2 ≠ .error "EOF" ∧
      ((HandleFile t sniff oracle fh dir rf disk).2.2 = .error "file type not permitted" ↔
        (CheckFileType t (sniff (sniffBuffer content))).2 = false) ∧
      (sniffBuffer content).length = 512 ∧
      List.IsPrefix (content.take 512) (sniffBuffer content)) := by
  constructor
  · intro hc
    subst hc
    unfold HandleFile
    rw [hopen]
    simp
  · intro hc
    have hbuf : (sniffBuffer content).length = 512 := by
      unfold sniffBuffer
      rw [List.length_append, List.length_replicate, List.length_take]
      omega
    have hpre : List.IsPrefix (content.take 512) (sniffBuffer content) :=
      ⟨List.replicate (512 - (content.take 512).length) 0, rfl⟩
    have hred : HandleFile t sniff oracle fh dir rf disk =
        (match CheckFileType t (sniff (sniffBuffer content)) with
         | (t2, ok) =>
           if !ok then (disk, t2, .error "file type not permitted")
           else (diskWrite disk (dir ++ "/" ++ GetNewFileName oracle fh rf) content, t2,
             .ok ⟨GetNewFileName oracle fh rf, fh.filename, content.length⟩)) := by
      unfold HandleFile
      rw [hopen]
      dsimp only
      rw [if_neg hc]
    rcases hck : CheckFileType t (sniff (sniffBuffer content)) with ⟨t2, ok⟩
    rw [hck] at hred
    cases ok with
    | false =>
      dsimp only at hred
      rw [hred]
      refine ⟨by simp, by simp, hbuf, hpre⟩
    | true =>
      dsimp only at hred
      rw [hred]
      refine ⟨by simp, by simp, hbuf, hpre⟩

theorem C4_witness :
    ([3] : List Nat) ≠ [] ∧
    (HandleFile ⟨5, ["text/plain"], 0, false⟩ (fun _ => "text/plain") (fun _ => 1)
      ⟨"a.txt", .ok [3]⟩ "up" false []).2.2 ≠ .error "EOF" :=
  ⟨by decide,
    ((C4_sniff_read ⟨5, ["text/plain"], 0, false⟩ (fun _ => "text/plain") (fun _ => 1)
      ⟨"a.txt", .ok [3]⟩ "up" false [] [3] rfl).2 (by decide)).1⟩

/-- A member of a list survives dropWhile when the predicate rejects it. -/
theorem mem_dropWhile_of_not {p : Char → Bool} (c : Char) :
    ∀ l : List Char, c ∈ l → p c = false → c ∈ l.dropWhile p := by
  intro l
  induction l with
  | nil => intro hc _; exact absurd hc (List.not_mem_nil c)
  | cons d ds ih =>
    intro hc hpc
    rw [List.dropWhile_cons]
    by_cases hd : p d = true
    · rw [if_pos hd]
      rcases List.mem_cons.mp hc with h | h
      · rw [h] at hpc; rw [hpc] at hd; exact absurd hd (by simp)
      · exact ih h hpc
    · rw [if_neg hd]
      exact hc

/-- A member of a list survives trimming from both ends when the predicate
rejects it. -/
theorem mem_trimList {p : Char → Bool} (c : Char) (s : List Char)
    (hc : c ∈ s) (hpc : p c = false) : c ∈ trimList p s := by
  unfold trimList
  rw [List.mem_reverse]
  refine mem_dropWhile_of_not c _ ?_ hpc
  rw [List.mem_reverse]
  exact mem_dropWhile_of_not c _ hc hpc

/-- Trimming a list all of whose members satisfy the predicate leaves
nothing. -/
theorem trimList_nil_of_all {p : Char → Bool} (s : List Char)
    (h : ∀ c ∈ s, p c = true) : trimList p s = [] := by
  unfold trimList
  rw [List.dropWhile_eq_nil_iff.mpr h]
  rfl

/-- When no character of the input is a slug character, the run replacement
produces only hyphens. -/
theorem replaceRuns_all_hyphen :
    ∀ (l : List Char) (b : Bool), (∀ c ∈ l, isSlugChar c = false) →
      ∀ c ∈ replaceRuns l b, c = '-' := by
  intro l
  induction l with
  | nil =>
    intro b _ c hc
    exact absurd hc (List.not_mem_nil c)
  | cons d ds ih =>
    intro b hall c hc
    have hd : isSlugChar d = false := hall d (List.mem_cons_self d ds)
    have hds : ∀ x ∈ ds, isSlugChar x = false :=
      fun x hx => hall x (List.mem_cons_of_mem d hx)
    unfold replaceRuns at hc
    rw [hd] at hc
    cases b with
    | true =>
      simp only [Bool.false_eq_true, if_false, if_true] at hc
      exact ih true hds c hc
    | false =>
      simp only [Bool.false_eq_true, if_false] at hc
      rcases List.mem_cons.mp hc with h | h
      · exact h
      · exact ih true hds c h

/-- A slug character of the input is kept by the run replacement. -/
theorem mem_replaceRuns_of_slug :
    ∀ (l : List Char) (b : Bool) (c : Char), c ∈ l → isSlugChar c = true →
      c ∈ replaceRuns l b := by
  intro l
  induction l with
  | nil =>
    intro b c hc _
    exact absurd hc (List.not_mem_nil c)
  | cons d ds ih =>
    intro b c hc hsc
    unfold replaceRuns
    by_cases hd : isSlugChar d = true
    · rw [if_pos hd]
      rcases List.mem_cons.mp hc with h | h
      · rw [h]; exact List.mem_cons_self d _
      · exact List.mem_cons_of_mem d (ih false c h hsc)
    · rw [if_neg hd]
      rcases List.mem_cons.mp hc with h | h
      · rw [h] at hsc; exact absurd hsc hd
      · cases b with
        | true =>
          rw [if_pos rfl]
          exact ih true c h hsc
        | false =>
          simp only [Bool.false_eq_true, if_false]
          exact List.mem_cons_of_mem '-' (ih true c h hsc)

/-- The slug pipeline collapses to nothing exactly when no input character
lower cases to a letter or digit. -/
theorem slug_nil_iff (s : List Char) :
    trimList (fun c => c = '-') (replaceRuns (s.map goToLower) false) = [] ↔
    ∀ c ∈ s, isSlugChar (goToLower c) = false := by
  constructor
  · intro h c hc
    cases hx : isSlugChar (goToLower c) with
    | false => rfl
    | true =>
      exfalso
      have hmem : goToLower c ∈ s.map goToLower := List.mem_map_of_mem goToLower hc
      have h2 : goToLower c ∈ replaceRuns (s.map goToLower) false :=
        mem_replaceRuns_of_slug _ false _ hmem hx
      have hneq : goToLower c ≠ '-' := by
        intro hcontra
        rw [hcontra] at hx
        exact absurd hx (by decide)
      have h3 : goToLower c ∈ trimList (fun c => c = '-') (replaceRuns (s.map goToLower) false) :=
        mem_trimList _ _ h2 (decide_eq_false hneq)
      rw [h] at h3
      exact absurd h3 (List.not_mem_nil _)
  · intro h
    apply trimList_nil_of_all
    intro c hc
    have hall : ∀ x ∈ s.map goToLower, isSlugChar x = false := by
      intro x hx
      rcases List.mem_map.mp hx with ⟨y, hy, hxy⟩
      rw [← hxy]
      exact h y hy
    rw [replaceRuns_all_hyphen (s.map goToLower) false hall c hc]
    decide

/-- C3: Slugify fails with the empty input error exactly when the space
trimmed input is blank; otherwise it fails with the empty result error
exactly when no character of the input lower cases to a letter or digit,
and else returns the lower cased input with non alphanumeric runs collapsed
to single hyphens and outer hyphens trimmed; the two specified examples
evaluate as stated, as do the two specified failures, and the two code
points beyond the ASCII letters whose lower case reaches the slug alphabet,
U+212A and U+0130, produce the slugs k and i rather than failing. -/
theorem C3_slugify :
    (∀ s, Slugify s = .error "empty string not permitted" ↔
      trimList (fun c => c = ' ') s = []) ∧
    (∀ s, trimList (fun c => c = ' ') s ≠ [] →
      (Slugify s = .error "slugified string is empty" ↔
        ∀ c ∈ s, isSlugChar (goToLower c) = false)) ∧
    (∀ s, trimList (fun c => c = ' ') s ≠ [] →
      trimList (fun c => c = '-') (replaceRuns (s.map goToLower) false) ≠ [] →
      Slugify s = .ok (trimList (fun c => c = '-') (replaceRuns (s.map goToLower) false))) ∧
    Slugify " hello   world ".data = .ok "hello-world".data ∧
    Slugify "Hugo, what the *!&~ are YOU UP to Dawg?".data =
      .ok "hugo-what-the-are-you-up-to-dawg".data ∧
    Slugify "  ".data = .error "empty string not permitted" ∧
    Slugify "&+=^".data = .error "slugified string is empty" ∧
    Slugify "\u212A".data = .ok "k".data ∧
    Slugify "\u0130".data = .ok "i".data := by
  have hmsg : ("slugified string is empty" : String) ≠ "empty string not permitted" := by decide
  refine ⟨?_, ?_, ?_, by decide, by decide, by decide, by decide, by decide, by decide⟩
  · intro s
    unfold Slugify
    by_cases h : trimList (fun c => c = ' ') s = []
    · rw [if_pos h]
      simp [h]
    · rw [if_neg h]
      dsimp only
      constructor
      · intro hcontra
        by_cases h2 : (trimList (fun c => c = '-') (replaceRuns (s.map goToLower) false)).length = 0
        · rw [if_pos h2] at hcontra
          exact absurd (Except.error.inj hcontra) hmsg
        · rw [if_neg h2] at hcontra
          exact absurd hcontra (by simp)
      · intro hcontra
        exact absurd hcontra h
  · intro s hs
    unfold Slugify
    rw [if_neg hs]
    dsimp only
    rw [← slug_nil_iff s, ← List.length_eq_zero]
    by_cases h2 : (trimList (fun c => c = '-') (replaceRuns (s.map goToLower) false)).length = 0
    · rw [if_pos h2]
      simp [h2]
    · rw [if_neg h2]
      simp [h2]
  · intro s hs hslug
    unfold Slugify
    rw [if_neg hs]
    dsimp only
    rw [if_neg (by rw [List.length_eq_zero]; exact hslug)]

theorem C3_witness :
    trimList (fun c => c = ' ') "?!?".data ≠ [] ∧
    Slugify "?!?".data = .error "slugified string is empty" :=
  ⟨by decide, (C3_slugify.2.1 "?!?".data (by decide)).mpr (by decide)⟩

/-- Writing one file never removes another path from the disk. -/
theorem diskHasPath_write (d : Disk) (p q : String) (c : List Nat)
    (h : diskHasPath d p = true) : diskHasPath (diskWrite d q c) p = true := by
  unfold diskHasPath at h ⊢
  unfold diskWrite
  rcases List.any_eq_true.mp h with ⟨kv, hkv, hp⟩
  have hkvp : kv.1 = p := of_decide_eq_true hp
  by_cases hpq : q = p
  · exact List.any_eq_true.mpr ⟨(q, c), List.mem_cons_self _ _, decide_eq_true hpq⟩
  · refine List.any_eq_true.mpr ⟨kv, List.mem_cons_of_mem _ ?_, hp⟩
    refine List.mem_filter.mpr ⟨hkv, ?_⟩
    exact decide_eq_true (by rw [hkvp]; exact fun hh => hpq hh.symm)

/-- The path just written is on the disk. -/
theorem diskHasPath_write_self (d : Disk) (q : String) (c : List Nat) :
    diskHasPath (diskWrite d q c) q = true := by
  unfold diskHasPath diskWrite
  exact List.any_eq_true.mpr ⟨(q, c), List.mem_cons_self _ _, decide_eq_true rfl⟩

/-- HandleFile never removes a path from the disk, whatever its outcome. -/
theorem HandleFile_preserves_path (t : Tools) (sniff : List Nat → String)
    (oracle : Nat → Nat) (fh : FileHeader) (dir : String) (rf : Bool) (disk : Disk)
    (p : String) (h : diskHasPath disk p = true) :
    diskHasPath (HandleFile t sniff oracle fh dir rf disk).1 p = true := by
  unfold HandleFile
  cases hopen : fh.openResult with
  | error e => exact h
  | ok content =>
    dsimp only
    by_cases hc : content = []
    · rw [if_pos hc]
      exact h
    · rw [if_neg hc]
      rcases hck : CheckFileType t (sniff (sniffBuffer content)) with ⟨t2, ok⟩
      cases ok with
      | false => exact h
      | true =>
        dsimp only
        exact diskHasPath_write disk p _ content h

/-- A successful HandleFile leaves the written file at its output path. -/
theorem HandleFile_ok_path (t : Tools) (sniff : List Nat → String)
    (oracle : Nat → Nat) (fh : FileHeader) (dir : String) (rf : Bool) (disk : Disk)
    (d2 : Disk) (t2 : Tools) (uf : UploadedFile)
    (h : HandleFile t sniff oracle fh dir rf disk = (d2, t2, .ok uf)) :
    diskHasPath d2 (dir ++ "/" ++ uf.NewFileName) = true := by
  unfold HandleFile at h
  cases hopen : fh.openResult with
  | error e =>
    rw [hopen] at h
    simp at h
  | ok content =>
    rw [hopen] at h
    dsimp only at h
    by_cases hc : content = []
    · rw [if_pos hc] at h
      simp at h
    · rw [if_neg hc] at h
      rcases hck : CheckFileType t (sniff (sniffBuffer content)) with ⟨tA, ok⟩
      rw [hck] at h
      cases ok with
      | false =>
        dsimp only at h
        simp at h
      | true =>
        dsimp only at h
        simp at h
        obtain ⟨hd2, hta, huf⟩ := h
        rw [← hd2, ← huf]
        exact diskHasPath_write_self disk _ content

/-- Every descriptor accumulated by the per file loop has its file present on
the resulting disk, whatever the loop outcome, provided the invariant held of
the starting accumulator. -/
theorem uploadLoop_paths (sniff : List Nat → String) (oracles : Nat → Nat → Nat)
    (dir : String) (rf : Bool) :
    ∀ (fs : List FileHeader) (idx : Nat) (t : Tools) (disk : Disk)
      (acc : List UploadedFile) (d1 : Disk) (t1 : Tools) (acc1 : List UploadedFile)
      (res : Option String),
      uploadLoop sniff oracles dir rf idx t disk acc fs = (d1, t1, acc1, res) →
      (∀ uf ∈ acc, diskHasPath disk (dir ++ "/" ++ uf.NewFileName) = true) →
      ∀ uf ∈ acc1, diskHasPath d1 (dir ++ "/" ++ uf.NewFileName) = true := by
  intro fs
  induction fs with
  | nil =>
    intro idx t disk acc d1 t1 acc1 res h hinv
    simp only [uploadLoop, Prod.mk.injEq] at h
    obtain ⟨hd, _, ha, _⟩ := h
    rw [← hd, ← ha]
    exact hinv
  | cons fh rest ih =>
    intro idx t disk acc d1 t1 acc1 res h hinv
    simp only [uploadLoop] at h
    rcases hH : HandleFile t sniff (oracles idx) fh dir rf disk with ⟨diskA, tA, r⟩
    rw [hH] at h
    cases r with
    | error e =>
      dsimp only at h
      simp only [Prod.mk.injEq] at h
      obtain ⟨hd, _, ha, _⟩ := h
      rw [← hd, ← ha]
      intro uf huf
      have hpres := HandleFile_preserves_path t sniff (oracles idx) fh dir rf disk _
        (hinv uf huf)
      rw [hH] at hpres
      exact hpres
    | ok uf0 =>
      dsimp only at h
      refine ih (idx + 1) tA diskA (acc ++ [uf0]) d1 t1 acc1 res h ?_
      intro uf huf
      rcases List.mem_append.mp huf with h1 | h2
      · have hpres := HandleFile_preserves_path t sniff (oracles idx) fh dir rf disk _
          (hinv uf h1)
        rw [hH] at hpres
        exact hpres
      · rw [List.mem_singleton.mp h2]
        exact HandleFile_ok_path t sniff (oracles idx) fh dir rf disk diskA tA uf0 hH

/-- The per file loop over a prefix that fully succeeds followed by a failing
file returns the prefix descriptors and the error, its result and side
effects independent of the files after the failing one, with one descriptor
per prefix file. -/
theorem uploadLoop_first_error (sniff : List Nat → String) (oracles : Nat → Nat → Nat)
    (dir : String) (rf : Bool) :
    ∀ (pre : List FileHeader) (idx : Nat) (t : Tools) (disk : Disk)
      (acc : List UploadedFile) (d1 : Disk) (t1 : Tools) (acc1 : List UploadedFile)
      (fh : FileHeader) (rest : List FileHeader) (d2 : Disk) (t2 : Tools) (e : String),
      uploadLoop sniff oracles dir rf idx t disk acc pre = (d1, t1, acc1, none) →
      HandleFile t1 sniff (oracles (idx + pre.length)) fh dir rf d1 = (d2, t2, .error e) →
      uploadLoop sniff oracles dir rf idx t disk acc (pre ++ fh :: rest) =
        (d2, t2, acc1, some e) ∧
      acc1.length = acc.length + pre.length := by
  intro pre
  induction pre with
  | nil =>
    intro idx t disk acc d1 t1 acc1 fh rest d2 t2 e hpre hfail
    simp only [uploadLoop, Prod.mk.injEq] at hpre
    obtain ⟨hd, ht, ha, _⟩ := hpre
    simp only [List.length_nil, Nat.add_zero] at hfail
    rw [← hd, ← ht] at hfail
    simp only [List.nil_append, uploadLoop]
    rw [hfail]
    rw [← ha]
    exact ⟨rfl, rfl⟩
  | cons p ps ih =>
    intro idx t disk acc d1 t1 acc1 fh rest d2 t2 e hpre hfail
    simp only [List.cons_append, uploadLoop] at hpre ⊢
    rcases hH : HandleFile t sniff (oracles idx) p dir rf disk with ⟨diskA, tA, r⟩
    rw [hH] at hpre
    cases r with
    | error e0 =>
      dsimp only at hpre
      simp at hpre
    | ok uf0 =>
      dsimp only at hpre ⊢
      have hfail2 : HandleFile t1 sniff (oracles ((idx + 1) + ps.length)) fh dir rf d1 =
          (d2, t2, .error e) := by
        have harith : (idx + 1) + ps.length = idx + (p :: ps).length := by
          simp [List.length_cons]
          omega
        rw [harith]
        exact hfail
      have hmain := ih (idx + 1) tA diskA (acc ++ [uf0]) d1 t1 acc1 fh rest d2 t2 e hpre hfail2
      refine ⟨hmain.1, ?_⟩
      rw [hmain.2]
      simp [List.length_append, List.length_cons]
      omega

/-- C1: when the per file step fails on some file of the batch, UploadFiles
returns that error together with the ordered descriptors of exactly the files
persisted before it, one per fully processed prefix file; the result does not
depend on the files after the failing one, and every returned descriptor
still has its file on the resulting disk, so nothing is rolled back. -/
theorem C1_upload_files_first_error (t : Tools) (sniff : List Nat → String)
    (oracles : Nat → Nat → Nat) (r : Request) (dir : String) (rename : List Bool)
    (disk : Disk) (pre : List FileHeader) (fh : FileHeader) (rest : List FileHeader)
    (d1 d2 : Disk) (t1 t2 : Tools) (acc1 : List UploadedFile) (e : String)
    (hmk : r.mkdirError = none) (hp : r.parseError = none)
    (hfiles : r.files = pre ++ fh :: rest)
    (hpre : uploadLoop sniff oracles dir (resolveRename rename) 0 (defMaxSize t) disk [] pre
      = (d1, t1, acc1, none))
    (hfail : HandleFile t1 sniff (oracles pre.length) fh dir (resolveRename rename) d1
      = (d2, t2, .error e)) :
    UploadFiles t sniff oracles r dir rename disk = (d2, t2, acc1, some e) ∧
    acc1.length = pre.length ∧
    ∀ uf ∈ acc1, diskHasPath d2 (dir ++ "/" ++ uf.NewFileName) = true := by
  have hfail0 : HandleFile t1 sniff (oracles (0 + pre.length)) fh dir (resolveRename rename) d1
      = (d2, t2, .error e) := by
    rw [Nat.zero_add]
    exact hfail
  have hmain := uploadLoop_first_error sniff oracles dir (resolveRename rename) pre 0
    (defMaxSize t) disk [] d1 t1 acc1 fh rest d2 t2 e hpre hfail0
  have heq : UploadFiles t sniff oracles r dir rename disk = (d2, t2, acc1, some e) := by
    unfold UploadFiles
    dsimp only
    rw [hmk, hp, hfiles]
    exact hmain.1
  refine ⟨heq, by simpa using hmain.2, ?_⟩
  exact uploadLoop_paths sniff oracles dir (resolveRename rename) (pre ++ fh :: rest) 0
    (defMaxSize t) disk [] d2 t2 acc1 (some e) hmain.1
    (fun uf h0 => absurd h0 (List.not_mem_nil _))

/-- The content sniffer of the concrete witness scenarios: the PNG magic
first byte yields the image type, anything else plain text. -/
def wSniff : List Nat → String :=
  fun b => if b.headD 0 = 137 then "image/png" else "text/plain"

/-- Configuration of the witness scenarios, with explicit sizes and allow
list so no lazy default fires. -/
def wTools : Tools := ⟨5, ["image/png"], 0, false⟩

/-- Witness batch: an accepted png, a rejected text file, a further png that
must never be processed. -/
def wReq : Request :=
  ⟨none, none, [⟨"a.png", .ok [137, 80]⟩, ⟨"b.txt", .ok [1, 2]⟩, ⟨"c.png", .ok [137]⟩]⟩

theorem C1_witness :
    UploadFiles wTools wSniff (fun _ _ => 1) wReq "up" [false] [] =
      ([("up/a.png", [137, 80])], wTools, [⟨"a.png", "a.png", 2⟩],
        some "file type not permitted") :=
  (C1_upload_files_first_error wTools wSniff (fun _ _ => 1) wReq "up" [false] []
    [⟨"a.png", .ok [137, 80]⟩] ⟨"b.txt", .ok [1, 2]⟩ [⟨"c.png", .ok [137]⟩]
    [("up/a.png", [137, 80])] [("up/a.png", [137, 80])] wTools wTools
    [⟨"a.png", "a.png", 2⟩] "file type not permitted"
    rfl rfl rfl (by decide) (by decide)).1

/-- Fast modular exponentiation by squaring with a structural fuel, so the
kernel can evaluate it on 64 bit exponents. -/
def powModAux : Nat → Nat → Nat → Nat → Nat
  | 0, _, _, n => 1 % n
  | fuel + 1, a, b, n =>
    if b = 0 then 1 % n
    else
      let h := powModAux fuel (a * a % n) (b / 2) n
      if b % 2 = 1 then a * h % n else h

theorem powModAux_eq :
    ∀ (fuel a b n : Nat), b < 2 ^ fuel → powModAux fuel a b n = a ^ b % n := by
  intro fuel
  induction fuel with
  | zero =>
    intro a b n hb
    have h1 : (2 : Nat) ^ 0 = 1 := rfl
    rw [h1] at hb
    have hb0 : b = 0 := by omega
    subst hb0
    simp [powModAux]
  | succ fuel ih =>
    intro a b n hb
    by_cases hb0 : b = 0
    · subst hb0
      simp [powModAux]
    · have hdiv : b / 2 < 2 ^ fuel := by
        rw [pow_succ] at hb
        omega
      have key : powModAux fuel (a * a % n) (b / 2) n = a ^ (2 * (b / 2)) % n := by
        rw [ih (a * a % n) (b / 2) n hdiv, ← Nat.pow_mod]
        congr 1
        rw [pow_mul, pow_two]
      unfold powModAux
      rw [if_neg hb0]
      dsimp only
      by_cases hpar : b % 2 = 1
      · rw [if_pos hpar, key]
        have hmul : a * (a ^ (2 * (b / 2)) % n) % n = a * a ^ (2 * (b / 2)) % n := by
          rw [Nat.mul_mod, Nat.mod_mod_of_dvd _ dvd_rfl, ← Nat.mul_mod]
        rw [hmul, ← pow_succ']
        congr 2
        omega
      · rw [if_neg hpar, key]
        congr 2
        omega

/-- Modular exponentiation for exponents below 2 to the 64. -/
def powMod (a b n : Nat) : Nat := powModAux 64 a b n

theorem powMod_eq (a b n : Nat) (hb : b < 2 ^ 64) : powMod a b n = a ^ b % n :=
  powModAux_eq 64 a b n hb

/-- A power of the natural 7 in ZMod equals one exactly when the computable
modular power says so. -/
theorem zmod_seven_pow (pp e : Nat) (he : e < 2 ^ 64) :
    (((7 : Nat) : ZMod pp) ^ e = 1) ↔ powMod 7 e pp = 1 % pp := by
  rw [powMod_eq 7 e pp he,
    show (1 : ZMod pp) = ((1 : Nat) : ZMod pp) from (Nat.cast_one).symm,
    ← Nat.cast_pow, ZMod.natCast_eq_natCast_iff']

/-- The Goldilocks number 2 to the 64 minus 2 to the 32 plus 1 is prime, by
the Lucas primality criterion with witness 7. -/
theorem goldilocks_prime : Nat.Prime 18446744069414584321 := by
  have hfact : 18446744069414584321 - 1 = 2 ^ 32 * (3 * (5 * (17 * (257 * 65537)))) := by
    norm_num
  apply lucas_primality 18446744069414584321 ((7 : Nat) : ZMod 18446744069414584321)
  · rw [zmod_seven_pow _ _ (by norm_num)]
    decide
  · intro q hq hdvd
    rw [hfact] at hdvd
    have hq6 : q = 2 ∨ q = 3 ∨ q = 5 ∨ q = 17 ∨ q = 257 ∨ q = 65537 := by
      rcases (Nat.Prime.dvd_mul hq).mp hdvd with h | h
      · exact Or.inl ((Nat.prime_dvd_prime_iff_eq hq Nat.prime_two).mp
          (Nat.Prime.dvd_of_dvd_pow hq h))
      · rcases (Nat.Prime.dvd_mul hq).mp h with h | h
        · exact Or.inr (Or.inl ((Nat.prime_dvd_prime_iff_eq hq (by norm_num)).mp h))
        · rcases (Nat.Prime.dvd_mul hq).mp h with h | h
          · exact Or.inr (Or.inr (Or.inl
              ((Nat.prime_dvd_prime_iff_eq hq (by norm_num)).mp h)))
          · rcases (Nat.Prime.dvd_mul hq).mp h with h | h
            · exact Or.inr (Or.inr (Or.inr (Or.inl
                ((Nat.prime_dvd_prime_iff_eq hq (by norm_num)).mp h))))
            · rcases (Nat.Prime.dvd_mul hq).mp h with h | h
              · exact Or.inr (Or.inr (Or.inr (Or.inr (Or.inl
                  ((Nat.prime_dvd_prime_iff_eq hq (by norm_num)).mp h)))))
              · exact Or.inr (Or.inr (Or.inr (Or.inr (Or.inr
                  ((Nat.prime_dvd_prime_iff_eq hq (by norm_num)).mp h)))))
    rcases hq6 with rfl | rfl | rfl | rfl | rfl | rfl <;>
      · intro hone
        rw [zmod_seven_pow _ _ (by norm_num)] at hone
        exact absurd hone (by decide)

/-- The 32 characters at odd indices of the random string alphabet. -/
def oddSourceChars : List Char := "bdfhjlnprtvxzBDFHJLNPRTVXZ24680+".data

/-- C10: when every oracle draw is a 64 bit prime, as rand.Prime supplies,
each draw is odd, so each selected index is odd modulo the 64 character
alphabet and every character of RandomString comes from the 32 characters at
odd positions of the source string. -/
theorem C10_prime_oracle_odd_indices (oracle : Nat → Nat) (n : Nat)
    (h : ∀ i, Nat.Prime (oracle i) ∧ 2 ^ 63 ≤ oracle i) :
    ∀ c ∈ RandomString oracle n, c ∈ oddSourceChars := by
  intro c hc
  unfold RandomString at hc
  rcases List.mem_map.mp hc with ⟨i, _, hci⟩
  obtain ⟨hprime, hge⟩ := h i
  have hp2 : oracle i ≠ 2 := by
    intro hcontra
    rw [hcontra] at hge
    norm_num at hge
  have hodd : oracle i % 2 = 1 := Nat.odd_iff.mp (hprime.odd_of_ne_two hp2)
  have hmod : (oracle i % 2 ^ 64) % 64 = oracle i % 64 :=
    Nat.mod_mod_of_dvd _ (by norm_num)
  have hodd64 : oracle i % 64 % 2 = 1 := by
    rw [Nat.mod_mod_of_dvd _ (by norm_num)]
    exact hodd
  have hlt : oracle i % 64 < 64 := Nat.mod_lt _ (by norm_num)
  have hkey : ∀ k, k < 64 → k % 2 = 1 → sourceChars.getD k ' ' ∈ oddSourceChars := by
    decide
  rw [← hci, hmod]
  exact hkey (oracle i % 64) hlt hodd64

theorem C10_witness :
    (∀ _ : Nat, Nat.Prime 18446744069414584321 ∧ 2 ^ 63 ≤ 18446744069414584321) ∧
    ∀ c ∈ RandomString (fun _ => 18446744069414584321) 5, c ∈ oddSourceChars :=
  ⟨fun _ => ⟨goldilocks_prime, by norm_num⟩,
   C10_prime_oracle_odd_indices (fun _ => 18446744069414584321) 5
     (fun _ => ⟨goldilocks_prime, by norm_num⟩)⟩

end Toolkit
